import Mathlib

/-!
Verification of the ACoV anatomical aggregation and cross-embryo alignment
engine (`parser.py`, `scripts/alignment.py`).

Conventions of the shallow embedding:
* Python dicts keyed by snapshot id / label become association lists built
  with an upsert operation (`dinsert`), matching insertion-order dict
  semantics; pandas dataframes become lists of row structures.
* Python numbers are modelled exactly: ints as `ℕ`/`ℤ`, float arithmetic
  on the values appearing here as `ℚ`, `np.cbrt` over `ℝ`.
* A Python function that can raise an uncaught exception is modelled as an
  `Option`-valued function, `none` meaning that an exception is raised.
  `ℚ`-division by zero (which yields 0 in Lean) is used only where the
  Python code performs a float division that yields `nan`/`inf` *without*
  raising (see `temporal_alignement`).
-/

namespace ACoV

/-! ## `utils/parser_settings.py` -/

/-- `cell_snapshot_k_digits = 4`: snapshot ids concatenate a time point and a
unique combination of `k` digits. -/
def cell_snapshot_k_digits : ℕ := 4

/-! ## `parser.py`: identity resolver -/

/-- Number of characters of `str(n)` for a nonnegative Python int `n`
(`str(0)` is `"0"`, one character). -/
def pyNumDigits (n : ℕ) : ℕ :=
  if n = 0 then 1 else (Nat.digits 10 n).length

/-- `get_timepoint(cell_snapshot_id)`: if `len(str(id)) > k`, the integer
formed by the decimal digits of `id` above the last `k` (that is,
`int(str(id)[:-k])`, here read off the base-10 digit expansion);
otherwise `0`. -/
def get_timepoint (cell_snapshot_id : ℕ) : ℕ :=
  if pyNumDigits cell_snapshot_id > cell_snapshot_k_digits then
    Nat.ofDigits 10 ((Nat.digits 10 cell_snapshot_id).drop cell_snapshot_k_digits)
  else 0

/-- `is_exterior(cell_snapshot_id)`: `id == 1 + tp * 10**k`. -/
def is_exterior (cell_snapshot_id : ℕ) : Bool :=
  cell_snapshot_id = 1 + get_timepoint cell_snapshot_id * 10 ^ cell_snapshot_k_digits

/-! ## `parser.py`: `rebrand_cell_name` -/

/-- Python `str.split('.')` on the character list of a string: cut at every
occurrence of `'.'`. -/
def splitOnDot : List Char → List (List Char)
  | [] => [[]]
  | c :: cs =>
    if c = '.' then [] :: splitOnDot cs
    else
      match splitOnDot cs with
      | part :: parts => (c :: part) :: parts
      | [] => [[c]]

/-- Python `int(s)` for the nonnegative digit strings that occur in cell
names; `none` models the `ValueError` raised on an empty or non-digit
string. -/
def parsePyNat (cs : List Char) : Option ℕ :=
  if cs ≠ [] ∧ cs.all (fun c => c.isDigit) then
    some (cs.foldl (fun acc c => 10 * acc + (c.toNat - 48)) 0)
  else none

/-- Python `x % 2 != 0` for the float held in `mother_proximity`: true
unless `x` is an even integer. -/
def pyMod2NeZero (x : ℚ) : Bool := !(x.den = 1 && x.num % 2 = 0)

/-- The `while mother_generation > 4` loop of `rebrand_cell_name`: while the
generation exceeds 4, add 1 to an odd proximity, then halve it by real
(float) division and decrement the generation. -/
def mother_proximity_walk : ℕ → ℚ → ℚ
  | 0, p => p
  | 1, p => p
  | 2, p => p
  | 3, p => p
  | 4, p => p
  | g + 5, p =>
    mother_proximity_walk (g + 4) ((if pyMod2NeZero p then p + 1 else p) / 2)

/-- `rebrand_cell_name(cell_name)`: split on `'.'` (a string that does not
split into exactly two parts is returned unchanged, modelling the caught
`ValueError`); parse `<letter><generation>.<proximity><symmetry>`; walk the
lineage back to generation 4 and uppercase the letter iff the walked
proximity is 1; print with the original generation and the leading zeros of
the proximity stripped.  `none` models an uncaught parse exception. -/
def rebrand_cell_name (cell_name : String) : Option String :=
  match splitOnDot cell_name.toList with
  | [lineage, position] =>
    match lineage.head?, parsePyNat lineage.tail,
          parsePyNat position.dropLast, position.getLast? with
    | some progenitor, some generation, some proximity, some symmetry =>
      let mp := mother_proximity_walk generation (proximity : ℚ)
      let prog := if mp = 1 then progenitor.toUpper else progenitor
      some (String.mk
        (prog :: (Nat.repr generation).toList ++
          '.' :: (Nat.repr proximity).toList ++ [symmetry]))
    | _, _, _, _ => none
  | _ => some cell_name

/-! ## Helper lemmas -/

lemma pyNumDigits_le_imp_lt {id : ℕ} (h : pyNumDigits id ≤ cell_snapshot_k_digits) :
    id < 10 ^ cell_snapshot_k_digits := by
  unfold pyNumDigits at h
  by_cases h0 : id = 0
  · subst h0; norm_num [cell_snapshot_k_digits]
  · rw [if_neg h0] at h
    calc id < 10 ^ (Nat.digits 10 id).length := Nat.lt_base_pow_length_digits (by norm_num)
    _ ≤ 10 ^ cell_snapshot_k_digits := Nat.pow_le_pow_right (by norm_num) h

lemma splitOnDot_no_dot {cs : List Char} (h : '.' ∉ cs) : splitOnDot cs = [cs] := by
  induction cs with
  | nil => rfl
  | cons c cs ih =>
    simp only [List.mem_cons, not_or] at h
    rw [splitOnDot, if_neg (fun hc => h.1 hc.symm), ih h.2]

/-- C9: `get_timepoint(id)` equals `id div 10^4` (the decimal digits above
the last `k = 4`), in particular it is `0` when `id` has at most 4 decimal
digits, with `get_timepoint(1) = 0` and `get_timepoint(40001) = 4`; and
`is_exterior(id)` holds iff `id == 1 + get_timepoint(id) * 10^4`. -/
theorem get_timepoint_div_is_exterior_spec :
    (∀ id : ℕ, get_timepoint id = id / 10 ^ cell_snapshot_k_digits)
    ∧ (∀ id : ℕ, pyNumDigits id ≤ cell_snapshot_k_digits → get_timepoint id = 0)
    ∧ get_timepoint 1 = 0 ∧ get_timepoint 40001 = 4
    ∧ (∀ id : ℕ, is_exterior id = true ↔
        id = 1 + get_timepoint id * 10 ^ cell_snapshot_k_digits) := by
  have hdiv : ∀ id : ℕ, get_timepoint id = id / 10 ^ cell_snapshot_k_digits := by
    intro id
    unfold get_timepoint
    split
    · rw [← Nat.self_div_pow_eq_ofDigits_drop cell_snapshot_k_digits id (by norm_num)]
    · rename_i h
      rw [eq_comm, Nat.div_eq_of_lt (pyNumDigits_le_imp_lt (Nat.not_lt.mp h))]
  refine ⟨hdiv, ?_, ?_, ?_, ?_⟩
  · intro id h
    rw [hdiv id, Nat.div_eq_of_lt (pyNumDigits_le_imp_lt h)]
  · rw [hdiv 1]; norm_num [cell_snapshot_k_digits]
  · rw [hdiv 40001]; norm_num [cell_snapshot_k_digits]
  · intro id
    unfold is_exterior
    exact decide_eq_true_iff

/-- Witness for C9: a concrete id with at most 4 digits has timepoint 0. -/
theorem get_timepoint_div_is_exterior_spec_witness :
    pyNumDigits 3 ≤ cell_snapshot_k_digits ∧ get_timepoint 3 = 0 := by
  have h : pyNumDigits 3 ≤ cell_snapshot_k_digits := by
    rw [pyNumDigits, if_neg (by norm_num),
      @Nat.digits_def' 10 (by norm_num) 3 (by norm_num)]
    simp [cell_snapshot_k_digits]
  exact ⟨h, get_timepoint_div_is_exterior_spec.2.1 3 h⟩

lemma rebrand_eq_of_parts (s : String) (lineage position : List Char)
    (generation proximity : ℕ) (progenitor symmetry : Char)
    (hsplit : splitOnDot s.toList = [lineage, position])
    (hhead : lineage.head? = some progenitor)
    (hgen : parsePyNat lineage.tail = some generation)
    (hprox : parsePyNat position.dropLast = some proximity)
    (hlast : position.getLast? = some symmetry) :
    rebrand_cell_name s =
      some (String.mk
        ((if mother_proximity_walk generation (proximity : ℚ) = 1 then progenitor.toUpper
          else progenitor) :: (Nat.repr generation).toList ++
          '.' :: (Nat.repr proximity).toList ++ [symmetry])) := by
  simp only [rebrand_cell_name, hsplit, hhead, hgen, hprox, hlast]

/-- C3 counterexample: the code (matching its own docstring) maps
`"b7.0007_"` to `"B7.7_"` — the ancestor walk `7 ↦ (7+1)/2 = 4 ↦ 2 ↦ 1`
ends at proximity 1, so the letter is uppercased — not to the lowercase
`"b7.7_"` asserted by the spec. -/
theorem rebrand_cell_name_b7_counterexample :
    rebrand_cell_name "b7.0007_" = some "B7.7_" ∧
    rebrand_cell_name "b7.0007_" ≠ some "b7.7_" := by
  have hw : mother_proximity_walk 7 ((7:ℕ):ℚ) = 1 := by
    norm_num [mother_proximity_walk, pyMod2NeZero]
  have h := rebrand_eq_of_parts "b7.0007_" ['b','7'] ['0','0','0','7','_'] 7 7 'b' '_'
    (by decide) (by decide) (by decide) (by decide) (by decide)
  rw [h, hw]
  exact ⟨by decide, by decide⟩

/-- C3 (amended: the expected output for `"b7.0007_"` is `"B7.7_"`, as the
walk ends at proximity 1): `rebrand_cell_name` maps `"a10.0004*"` to
`"A10.4*"` and `"b7.0007_"` to `"B7.7_"`; a string without `'.'` is
returned unchanged; and any well-formed
`<letter><generation>.<proximity><symmetry>` input yields
`f"{letter}{generation}.{proximity}{symmetry}"` with the original
generation, the proximity's leading zeros stripped, and the letter
uppercased iff the ancestor walk ends with proximity 1. -/
theorem rebrand_cell_name_spec :
    rebrand_cell_name "a10.0004*" = some "A10.4*"
    ∧ rebrand_cell_name "b7.0007_" = some "B7.7_"
    ∧ (∀ s : String, '.' ∉ s.toList → rebrand_cell_name s = some s)
    ∧ (∀ (s : String) (lineage position : List Char) (generation proximity : ℕ)
        (progenitor symmetry : Char),
        splitOnDot s.toList = [lineage, position] →
        lineage.head? = some progenitor →
        parsePyNat lineage.tail = some generation →
        parsePyNat position.dropLast = some proximity →
        position.getLast? = some symmetry →
        rebrand_cell_name s =
          some (String.mk
            ((if mother_proximity_walk generation (proximity : ℚ) = 1 then
                progenitor.toUpper else progenitor) ::
              (Nat.repr generation).toList ++
              '.' :: (Nat.repr proximity).toList ++ [symmetry]))) := by
  refine ⟨?_, ?_, ?_, ?_⟩
  · have hw : mother_proximity_walk 10 ((4:ℕ):ℚ) = 1 := by
      norm_num [mother_proximity_walk, pyMod2NeZero]
    have h := rebrand_eq_of_parts "a10.0004*" ['a','1','0'] ['0','0','0','4','*'] 10 4 'a' '*'
      (by decide) (by decide) (by decide) (by decide) (by decide)
    rw [h, hw]
    decide
  · have hw : mother_proximity_walk 7 ((7:ℕ):ℚ) = 1 := by
      norm_num [mother_proximity_walk, pyMod2NeZero]
    have h := rebrand_eq_of_parts "b7.0007_" ['b','7'] ['0','0','0','7','_'] 7 7 'b' '_'
      (by decide) (by decide) (by decide) (by decide) (by decide)
    rw [h, hw]
    decide
  · intro s hs
    simp only [rebrand_cell_name, splitOnDot_no_dot hs]
  · intro s lineage position generation proximity progenitor symmetry h1 h2 h3 h4 h5
    exact rebrand_eq_of_parts s lineage position generation proximity progenitor symmetry
      h1 h2 h3 h4 h5

/-- Witness for C3: the general well-formed case applied to the concrete
input `"b6.0003_"` (walk `3 ↦ 2 ↦ 1`, so the letter is uppercased). -/
theorem rebrand_cell_name_spec_witness :
    rebrand_cell_name "b6.0003_" = some "B6.3_" := by
  have hw : mother_proximity_walk 6 ((3:ℕ):ℚ) = 1 := by
    norm_num [mother_proximity_walk, pyMod2NeZero]
  have h := rebrand_cell_name_spec.2.2.2 "b6.0003_" ['b','6'] ['0','0','0','3','_'] 6 3 'b' '_'
    (by decide) (by decide) (by decide) (by decide) (by decide)
  rw [h, hw]
  decide

/-! ## `parser.py`: labels and dict aggregation -/

/-- A value returned by a naming function (`get_cell_name` /
`get_cell_tissue`): either a string (a rebranded cell name, a tissue fate,
or `"exterior"`) or the integer unresolved marker `0` returned when a
snapshot has neither a name/fate entry nor exterior status. -/
inductive Label where
  | str : String → Label
  | num : ℕ → Label
deriving DecidableEq

/-- Python `str(x).isdigit()` as used in the dataframe filters: true on the
integer unresolved marker, and on a nonempty all-digit string. -/
def labelIsDigit : Label → Bool
  | .str s => s.toList ≠ [] && s.toList.all (fun c => c.isDigit)
  | .num _ => true

/-- `d.get(k, v0)` on an insertion-ordered Python dict modelled as an
association list: the value at the first occurrence of `k`, else the
default. -/
def dget {α β : Type} [DecidableEq α] (d : List (α × β)) (k : α) (v0 : β) : β :=
  match d.find? (fun kv => decide (kv.1 = k)) with
  | some kv => kv.2
  | none => v0

/-- `d[k] = v` on an insertion-ordered Python dict: overwrite the value at
`k` if the key is present, else append the new binding at the end. -/
def dinsert {α β : Type} [DecidableEq α] (d : List (α × β)) (k : α) (v : β) :
    List (α × β) :=
  if d.any (fun kv => decide (kv.1 = k)) then
    d.map (fun kv => if kv.1 = k then (k, v) else kv)
  else d ++ [(k, v)]

/-- `get_named_dict_and_counter(data, cell_resolution_dict, name_fun)`:
rename the snapshot ids of a snapshot-to-value dict through `name_fun`
(already closed over `data`), summing the values of snapshots that share a
label and counting the contributing snapshots per label. -/
def get_named_dict_and_counter (name_fun : ℕ → Label)
    (cell_resolution_dict : List (ℕ × ℚ)) :
    List (Label × ℚ) × List (Label × ℕ) :=
  cell_resolution_dict.foldl
    (fun acc kv =>
      let name := name_fun kv.1
      (dinsert acc.1 name (dget acc.1 name 0 + kv.2),
       dinsert acc.2 name (dget acc.2 name 0 + 1)))
    ([], [])

/-- `merge_dicts(labels_and_dicts)`: merge the dicts associated to the same
label, summing the values of shared keys. -/
def merge_dicts (labels_and_dicts : List (Label × List (Label × ℚ))) :
    List (Label × List (Label × ℚ)) :=
  labels_and_dicts.foldl
    (fun output ld =>
      dinsert output ld.1
        (ld.2.foldl (fun e kv => dinsert e kv.1 (dget e kv.1 0 + kv.2))
          (dget output ld.1 [])))
    []

/-! ### Association-list lemmas -/

section DictLemmas

variable {α β : Type} [DecidableEq α]

lemma dget_nil (k : α) (v0 : β) : dget ([] : List (α × β)) k v0 = v0 := rfl

lemma dget_cons (kv : α × β) (d : List (α × β)) (k : α) (v0 : β) :
    dget (kv :: d) k v0 = if kv.1 = k then kv.2 else dget d k v0 := by
  by_cases h : kv.1 = k
  · simp [dget, h]
  · simp only [dget,
      @List.find?_cons_of_neg _ (fun kv => decide (kv.1 = k)) kv d (by simp [h]),
      if_neg h]

lemma dinsert_nil (k : α) (v : β) : dinsert ([] : List (α × β)) k v = [(k, v)] := by
  simp [dinsert]

lemma dinsert_cons_ne (kv : α × β) (d : List (α × β)) {k : α} (v : β)
    (hk : kv.1 ≠ k) : dinsert (kv :: d) k v = kv :: dinsert d k v := by
  rcases h : (d.any fun kv => decide (kv.1 = k)) with _ | _
  · rw [dinsert, if_neg (by simp [List.any_cons, h, hk]), dinsert, if_neg (by simp [h])]
    simp
  · rw [dinsert, if_pos (by simp [List.any_cons, h]), dinsert, if_pos (by simp [h])]
    simp [if_neg hk]

lemma dinsert_cons_eq (kv : α × β) (d : List (α × β)) {k : α} (v : β)
    (hk : kv.1 = k) :
    dinsert (kv :: d) k v =
      (k, v) :: d.map (fun kv => if kv.1 = k then (k, v) else kv) := by
  rw [dinsert, if_pos (by simp [List.any_cons, hk])]
  simp [if_pos hk]

lemma map_overwrite_of_no_key {d : List (α × β)} {k : α} (v : β)
    (hd : ∀ kv ∈ d, kv.1 ≠ k) :
    d.map (fun kv => if kv.1 = k then (k, v) else kv) = d := by
  rw [show d.map (fun kv => if kv.1 = k then (k, v) else kv) = d.map id from
    List.map_congr_left (fun a ha => by simp [if_neg (hd a ha)]), List.map_id]

lemma dget_map_overwrite_ne {d : List (α × β)} {k k' : α} (v : β) (v0 : β)
    (h : k' ≠ k) :
    dget (d.map (fun kv => if kv.1 = k then (k, v) else kv)) k' v0 =
      dget d k' v0 := by
  induction d with
  | nil => rfl
  | cons kv d ih =>
    rw [List.map_cons, dget_cons, dget_cons, ih]
    by_cases hk : kv.1 = k
    · rw [if_pos hk, if_neg (fun hh : k = k' => h hh.symm),
        if_neg (fun hh : kv.1 = k' => h (hk ▸ hh).symm)]
    · rw [if_neg hk]

lemma dget_dinsert (d : List (α × β)) (k k' : α) (v : β) (v0 : β) :
    dget (dinsert d k v) k' v0 = if k' = k then v else dget d k' v0 := by
  by_cases h' : k' = k
  · subst h'
    rw [if_pos rfl]
    induction d with
    | nil => rw [dinsert_nil, dget_cons, if_pos rfl]
    | cons kv d ih =>
      by_cases hk : kv.1 = k'
      · rw [dinsert_cons_eq kv d v hk, dget_cons, if_pos rfl]
      · rw [dinsert_cons_ne kv d v hk, dget_cons, if_neg hk, ih]
  · rw [if_neg h']
    induction d with
    | nil => rw [dinsert_nil, dget_cons, if_neg (fun hh : k = k' => h' hh.symm), dget_nil]
    | cons kv d ih =>
      by_cases hk : kv.1 = k
      · rw [dinsert_cons_eq kv d v hk, dget_cons,
          if_neg (fun hh : k = k' => h' hh.symm), dget_map_overwrite_ne v v0 h',
          dget_cons, if_neg (fun hh : kv.1 = k' => h' (hk ▸ hh).symm)]
      · rw [dinsert_cons_ne kv d v hk, dget_cons, dget_cons, ih]

lemma keys_dinsert_any_true {d : List (α × β)} {k : α} (v : β)
    (h : (d.any fun kv => decide (kv.1 = k)) = true) :
    (dinsert d k v).map (·.1) = d.map (·.1) := by
  rw [dinsert, if_pos h, List.map_map]
  apply List.map_congr_left
  intro a _
  by_cases hk : a.1 = k
  · simp [if_pos hk, hk]
  · simp [if_neg hk]

lemma keys_nodup_dinsert {d : List (α × β)} {k : α} (v : β)
    (hnd : (d.map (·.1)).Nodup) : ((dinsert d k v).map (·.1)).Nodup := by
  rcases h : (d.any fun kv => decide (kv.1 = k)) with _ | _
  · rw [dinsert, if_neg (by simp [h]), List.map_append]
    simp only [List.map_cons, List.map_nil]
    rw [List.nodup_append]
    refine ⟨hnd, List.nodup_singleton k, ?_⟩
    intro a ha hak
    rcases List.mem_map.mp ha with ⟨kv, hkv, rfl⟩
    have := List.any_eq_false.mp h kv hkv
    simp only [List.mem_singleton] at hak
    simp [hak] at this
  · rw [keys_dinsert_any_true v h]
    exact hnd

lemma sum_values_dinsert_add {M : Type} [AddCommMonoid M] {d : List (α × M)}
    (hnd : (d.map (·.1)).Nodup) (k : α) (w : M) :
    ((dinsert d k (dget d k 0 + w)).map (·.2)).sum = (d.map (·.2)).sum + w := by
  induction d with
  | nil => simp [dinsert_nil, dget_nil]
  | cons kv d ih =>
    simp only [List.map_cons, List.nodup_cons] at hnd
    by_cases hk : kv.1 = k
    · rw [dinsert_cons_eq kv d _ hk, dget_cons, if_pos hk]
      have hno : ∀ kv' ∈ d, kv'.1 ≠ k := by
        intro kv' h' hk'
        exact hnd.1 (hk ▸ hk' ▸ List.mem_map_of_mem (·.1) h')
      rw [map_overwrite_of_no_key _ hno]
      simp [add_right_comm]
    · rw [dinsert_cons_ne kv d _ hk, dget_cons, if_neg hk, List.map_cons, List.sum_cons,
        ih hnd.2, List.map_cons, List.sum_cons, add_assoc]

variable {M ι : Type} [AddCommMonoid M]

lemma dget_foldl_dinsert_add (key : ι → α) (val : ι → M) (l : List ι)
    (acc : List (α × M)) (k : α) :
    dget (l.foldl (fun d i => dinsert d (key i) (dget d (key i) 0 + val i)) acc) k 0
      = dget acc k 0 + ((l.filter (fun i => decide (key i = k))).map val).sum := by
  induction l generalizing acc with
  | nil => simp
  | cons i l ih =>
    rw [List.foldl_cons, ih, dget_dinsert, List.filter_cons]
    by_cases hk : key i = k
    · rw [if_pos hk.symm, if_pos (by simp [hk])]
      simp [hk, add_assoc]
    · rw [if_neg (fun hh => hk hh.symm), if_neg (by simp [hk])]

lemma keys_nodup_foldl_dinsert (key : ι → α) (val : ι → M) (l : List ι)
    (acc : List (α × M)) (hnd : (acc.map (·.1)).Nodup) :
    ((l.foldl (fun d i => dinsert d (key i) (dget d (key i) 0 + val i)) acc).map
      (·.1)).Nodup := by
  induction l generalizing acc with
  | nil => exact hnd
  | cons i l ih => exact ih _ (keys_nodup_dinsert _ hnd)

lemma sum_foldl_dinsert_add (key : ι → α) (val : ι → M) (l : List ι)
    (acc : List (α × M)) (hnd : (acc.map (·.1)).Nodup) :
    ((l.foldl (fun d i => dinsert d (key i) (dget d (key i) 0 + val i)) acc).map
        (·.2)).sum
      = (acc.map (·.2)).sum + (l.map val).sum := by
  induction l generalizing acc with
  | nil => simp
  | cons i l ih =>
    rw [List.foldl_cons, ih _ (keys_nodup_dinsert _ hnd),
      sum_values_dinsert_add hnd, List.map_cons, List.sum_cons, add_right_comm,
      add_assoc]
    rw [add_comm (val i)]

end DictLemmas

/-! ### Characterisation of `get_named_dict_and_counter` and `merge_dicts` -/

lemma get_named_dict_and_counter_eq (name_fun : ℕ → Label)
    (pairs : List (ℕ × ℚ)) :
    get_named_dict_and_counter name_fun pairs
      = (pairs.foldl
          (fun d kv => dinsert d (name_fun kv.1) (dget d (name_fun kv.1) 0 + kv.2)) [],
         pairs.foldl
          (fun d kv => dinsert d (name_fun kv.1) (dget d (name_fun kv.1) 0 + 1)) []) := by
  unfold get_named_dict_and_counter
  generalize ([] : List (Label × ℚ)) = acc1
  generalize ([] : List (Label × ℕ)) = acc2
  induction pairs generalizing acc1 acc2 with
  | nil => rfl
  | cons kv pairs ih => exact ih _ _

lemma dget_merge_dicts_acc (lds : List (Label × List (Label × ℚ)))
    (acc : List (Label × List (Label × ℚ))) (L k : Label) :
    dget (dget
        (lds.foldl
          (fun output ld =>
            dinsert output ld.1
              (ld.2.foldl (fun e kv => dinsert e kv.1 (dget e kv.1 0 + kv.2))
                (dget output ld.1 [])))
          acc) L []) k 0
      = dget (dget acc L []) k 0
        + ((lds.filter (fun ld => decide (ld.1 = L))).map
            (fun ld => ((ld.2.filter (fun kv => decide (kv.1 = k))).map (·.2)).sum)).sum := by
  induction lds generalizing acc with
  | nil => simp
  | cons ld lds ih =>
    rw [List.foldl_cons, ih, dget_dinsert, List.filter_cons]
    by_cases hL : ld.1 = L
    · rw [if_pos hL.symm, if_pos (by simp [hL]),
        dget_foldl_dinsert_add (fun kv : Label × ℚ => kv.1) (fun kv => kv.2)]
      simp [hL, add_assoc]
    · rw [if_neg (fun hh => hL hh.symm), if_neg (by simp [hL])]

lemma sum_map_one {ι : Type} (l : List ι) : (l.map (fun _ => (1 : ℕ))).sum = l.length := by
  induction l with
  | nil => rfl
  | cons i l ih => simp [ih, Nat.add_comm]

/-- C7: routing any multiset of (label, value) pairs through the
aggregation merge is order-independent and value-faithful: in
`get_named_dict_and_counter`, each label's stored value is the sum of all
input values carrying that label and the counter is the number of
contributing snapshots (one per snapshot, independent of its value); the
overall stored total equals the sum of all input values; and in
`merge_dicts`, the value stored under (label, key) is the sum over all
input dicts tagged with that label of their entries at that key.  All
those reads are invariant under permutation of the input. -/
theorem aggregation_merge_spec :
    (∀ (name_fun : ℕ → Label) (pairs : List (ℕ × ℚ)) (L : Label),
       dget (get_named_dict_and_counter name_fun pairs).1 L 0
         = ((pairs.filter (fun kv => decide (name_fun kv.1 = L))).map (·.2)).sum
       ∧ dget (get_named_dict_and_counter name_fun pairs).2 L 0
         = (pairs.filter (fun kv => decide (name_fun kv.1 = L))).length)
    ∧ (∀ (name_fun : ℕ → Label) (pairs : List (ℕ × ℚ)),
       ((get_named_dict_and_counter name_fun pairs).1.map (·.2)).sum
         = (pairs.map (·.2)).sum)
    ∧ (∀ (name_fun : ℕ → Label) (pairs pairs' : List (ℕ × ℚ)),
       pairs.Perm pairs' → ∀ L : Label,
         dget (get_named_dict_and_counter name_fun pairs).1 L 0
           = dget (get_named_dict_and_counter name_fun pairs').1 L 0
         ∧ dget (get_named_dict_and_counter name_fun pairs).2 L 0
           = dget (get_named_dict_and_counter name_fun pairs').2 L 0)
    ∧ (∀ (lds : List (Label × List (Label × ℚ))) (L k : Label),
       dget (dget (merge_dicts lds) L []) k 0
         = ((lds.filter (fun ld => decide (ld.1 = L))).map
             (fun ld => ((ld.2.filter (fun kv => decide (kv.1 = k))).map (·.2)).sum)).sum)
    ∧ (∀ (lds lds' : List (Label × List (Label × ℚ))), lds.Perm lds' →
       ∀ L k : Label,
         dget (dget (merge_dicts lds) L []) k 0
           = dget (dget (merge_dicts lds') L []) k 0) := by
  have hval : ∀ (name_fun : ℕ → Label) (pairs : List (ℕ × ℚ)) (L : Label),
      dget (get_named_dict_and_counter name_fun pairs).1 L 0
        = ((pairs.filter (fun kv => decide (name_fun kv.1 = L))).map (·.2)).sum := by
    intro name_fun pairs L
    rw [get_named_dict_and_counter_eq,
      dget_foldl_dinsert_add (fun kv : ℕ × ℚ => name_fun kv.1) (fun kv => kv.2),
      dget_nil, zero_add]
  have hcnt : ∀ (name_fun : ℕ → Label) (pairs : List (ℕ × ℚ)) (L : Label),
      dget (get_named_dict_and_counter name_fun pairs).2 L 0
        = (pairs.filter (fun kv => decide (name_fun kv.1 = L))).length := by
    intro name_fun pairs L
    rw [get_named_dict_and_counter_eq,
      dget_foldl_dinsert_add (fun kv : ℕ × ℚ => name_fun kv.1) (fun _ => (1 : ℕ)),
      dget_nil, zero_add, sum_map_one]
  have hmerge : ∀ (lds : List (Label × List (Label × ℚ))) (L k : Label),
      dget (dget (merge_dicts lds) L []) k 0
        = ((lds.filter (fun ld => decide (ld.1 = L))).map
            (fun ld => ((ld.2.filter (fun kv => decide (kv.1 = k))).map (·.2)).sum)).sum := by
    intro lds L k
    rw [merge_dicts, dget_merge_dicts_acc]
    simp [dget_nil]
  refine ⟨fun nf pairs L => ⟨hval nf pairs L, hcnt nf pairs L⟩, ?_, ?_, hmerge, ?_⟩
  · intro name_fun pairs
    rw [get_named_dict_and_counter_eq,
      sum_foldl_dinsert_add (fun kv : ℕ × ℚ => name_fun kv.1) (fun kv => kv.2) pairs []
        (by simp)]
    simp
  · intro name_fun pairs pairs' hperm L
    constructor
    · rw [hval, hval]
      exact ((hperm.filter _).map _).sum_eq
    · rw [hcnt, hcnt]
      exact (hperm.filter _).length_eq
  · intro lds lds' hperm L k
    rw [hmerge, hmerge]
    exact ((hperm.filter _).map _).sum_eq

/-- Witness for C7: order-independence applied to a concrete two-element
input, with both orders evaluated. -/
theorem aggregation_merge_spec_witness :
    ([((1 : ℕ), (2 : ℚ)), (2, 3)].Perm [((2 : ℕ), (3 : ℚ)), (1, 2)])
    ∧ dget (get_named_dict_and_counter (fun _ => Label.str "x")
        [((1 : ℕ), (2 : ℚ)), (2, 3)]).1 (Label.str "x") 0
      = dget (get_named_dict_and_counter (fun _ => Label.str "x")
        [((2 : ℕ), (3 : ℚ)), (1, 2)]).1 (Label.str "x") 0 :=
  ⟨List.Perm.swap _ _ _,
   (aggregation_merge_spec.2.2.1 (fun _ => Label.str "x") _ _
      (List.Perm.swap _ _ _) (Label.str "x")).1⟩

/-! ## `parser.py`: contacts tables -/

/-- One row of a contacts dataframe. -/
structure ContactRow where
  tp : ℕ
  neighbor_1 : Label
  neighbor_2 : Label
  surface : ℚ
deriving DecidableEq

/-- The body of the `for tp, cell_snapshot_contacts in data[contact_tag]`
loop of `frame_sub_resolution_contacts`: rename each snapshot's contact
dict, tag it with the snapshot's own label, merge the tagged dicts of
identical objects, and emit one row per (object, neighbor, surface). -/
def contacts_rows_at_tp (name_fun : ℕ → Label) (tp : ℕ)
    (cell_snapshot_contacts : List (ℕ × List (ℕ × ℚ))) : List ContactRow :=
  let object_contacts_at_tp := cell_snapshot_contacts.map
    (fun c => (name_fun c.1, (get_named_dict_and_counter name_fun c.2).1))
  ((merge_dicts object_contacts_at_tp).map
    (fun oc => oc.2.map (fun kv => ContactRow.mk tp oc.1 kv.1 kv.2))).flatten

/-- `frame_sub_resolution_contacts(data, name_fun)`: all rows over all
timepoints, then drop rows whose source is `"exterior"`, rows that are
self-pairs, and rows whose source label is all-digits (the unresolved
marker). -/
def frame_sub_resolution_contacts (name_fun : ℕ → Label)
    (contact_data : List (ℕ × List (ℕ × List (ℕ × ℚ)))) : List ContactRow :=
  let rows :=
    (contact_data.map (fun tc => contacts_rows_at_tp name_fun tc.1 tc.2)).flatten
  let rows1 := rows.filter (fun r => !decide (r.neighbor_1 = Label.str "exterior"))
  let rows2 := rows1.filter (fun r => !decide (r.neighbor_1 = r.neighbor_2))
  rows2.filter (fun r => !labelIsDigit r.neighbor_1)

/-- The final contacts filter of `parse_xml_completely`: drop rows whose
`neighbor_2` is all-digits (a neighbor unpaired to a cell name, a tissue
fate or the exterior). -/
def filter_contacts_neighbor_2 (contacts : List ContactRow) : List ContactRow :=
  contacts.filter (fun r => !labelIsDigit r.neighbor_2)

/-- C6: in the contacts tables returned from `parse_xml_completely`, no row
is a self-pair, no row has source `"exterior"`, and no row mentions the
integer unresolved marker on either side; rows whose target is
`"exterior"` are retained by the final filter. -/
theorem contacts_tables_invariant :
    ∀ (name_fun : ℕ → Label) (contact_data : List (ℕ × List (ℕ × List (ℕ × ℚ)))),
      (∀ r ∈ filter_contacts_neighbor_2
          (frame_sub_resolution_contacts name_fun contact_data),
        r.neighbor_1 ≠ r.neighbor_2
        ∧ r.neighbor_1 ≠ Label.str "exterior"
        ∧ (∀ m : ℕ, r.neighbor_1 ≠ Label.num m)
        ∧ (∀ m : ℕ, r.neighbor_2 ≠ Label.num m))
      ∧ (∀ r ∈ frame_sub_resolution_contacts name_fun contact_data,
          r.neighbor_2 = Label.str "exterior" →
            r ∈ filter_contacts_neighbor_2
              (frame_sub_resolution_contacts name_fun contact_data)) := by
  intro name_fun contact_data
  constructor
  · intro r hr
    rw [filter_contacts_neighbor_2, List.mem_filter] at hr
    obtain ⟨hr1, hdig2⟩ := hr
    simp only [frame_sub_resolution_contacts] at hr1
    rw [List.mem_filter] at hr1
    obtain ⟨hr2, hdig1⟩ := hr1
    rw [List.mem_filter] at hr2
    obtain ⟨hr3, hself⟩ := hr2
    rw [List.mem_filter] at hr3
    obtain ⟨_, hext⟩ := hr3
    refine ⟨?_, ?_, ?_, ?_⟩
    · intro h; simp [h] at hself
    · intro h; simp [h] at hext
    · intro m h; rw [h] at hdig1; simp [labelIsDigit] at hdig1
    · intro m h; rw [h] at hdig2; simp [labelIsDigit] at hdig2
  · intro r hr hr2
    rw [filter_contacts_neighbor_2, List.mem_filter]
    refine ⟨hr, ?_⟩
    rw [hr2]
    decide

/-- Witness for C6: the invariant instantiated at a concrete three-snapshot
contact table (one exterior snapshot, one named cell, one unresolved id)
whose final output contains the row (a, exterior). -/
theorem contacts_tables_invariant_witness :
    (ContactRow.mk 0 (Label.str "a") (Label.str "exterior") 5) ∈
      filter_contacts_neighbor_2 (frame_sub_resolution_contacts
        (fun id => if id = 1 then Label.str "exterior"
                   else if id = 2 then Label.str "a"
                   else if id = 3 then Label.str "b" else Label.num 0)
        [(0, [(2, [(1, 5), (3, 2), (4, 1)]), (1, [(2, 5)]), (4, [(2, 1)])])])
    ∧ (ContactRow.mk 0 (Label.str "a") (Label.str "exterior") 5).neighbor_1 ≠
        (ContactRow.mk 0 (Label.str "a") (Label.str "exterior") 5).neighbor_2 :=
  have hmem : (ContactRow.mk 0 (Label.str "a") (Label.str "exterior") 5) ∈
      filter_contacts_neighbor_2 (frame_sub_resolution_contacts
        (fun id => if id = 1 then Label.str "exterior"
                   else if id = 2 then Label.str "a"
                   else if id = 3 then Label.str "b" else Label.num 0)
        [(0, [(2, [(1, 5), (3, 2), (4, 1)]), (1, [(2, 5)]), (4, [(2, 1)])])]) := by
    with_unfolding_all decide
  ⟨hmem,
   ((contacts_tables_invariant
      (fun id => if id = 1 then Label.str "exterior"
                 else if id = 2 then Label.str "a"
                 else if id = 3 then Label.str "b" else Label.num 0)
      [(0, [(2, [(1, 5), (3, 2), (4, 1)]), (1, [(2, 5)]), (4, [(2, 1)])])]).1
      _ hmem).1⟩

/-! ## `parser.py`: embryo reducer -/

/-- One row of a global (tissue- or cell-resolution) dataframe, as consumed
by `frame_embryo_resolution_global`. -/
structure GlobalRow where
  tp : ℕ
  object : Label
  volume : ℚ
  cell_count : ℕ
deriving DecidableEq

/-- One row of the embryo-resolution dataframe. -/
structure EmbryoRow where
  tp : ℕ
  volume : ℚ
  total_surface : ℚ
  cell_count : ℕ
deriving DecidableEq

/-- One iteration of the `for tp, row in embryo_global.iterrows()` loop:
sum the global rows at `tp`, and look up `embryo_surfaces[tp]`, the summed
surface of the contact rows at `tp` whose target is `"exterior"`; `none`
models the `KeyError` raised when no such contact row exists. -/
def embryo_row_at (g : List GlobalRow) (c : List ContactRow) (tp : ℕ) :
    Option EmbryoRow :=
  let ext := c.filter
    (fun r => decide (r.neighbor_2 = Label.str "exterior") && decide (r.tp = tp))
  if ext.isEmpty then none
  else
    let grows := g.filter (fun r => decide (r.tp = tp))
    some (EmbryoRow.mk tp ((grows.map (·.volume)).sum) ((ext.map (·.surface)).sum)
      ((grows.map (·.cell_count)).sum))

/-- The row-collecting loop of `frame_embryo_resolution_global` over a list
of timepoints. -/
def embryo_rows (g : List GlobalRow) (c : List ContactRow) :
    List ℕ → Option (List EmbryoRow)
  | [] => some []
  | tp :: tps =>
    match embryo_row_at g c tp, embryo_rows g c tps with
    | some row, some rows => some (row :: rows)
    | _, _ => none

/-- `frame_embryo_resolution_global(sub_resolution_global,
sub_resolution_contacts)`: one embryo row per timepoint of the global
table (pandas `groupby` iterates the sorted distinct keys). -/
def frame_embryo_resolution_global (g : List GlobalRow) (c : List ContactRow) :
    Option (List EmbryoRow) :=
  embryo_rows g c ((g.map (·.tp)).dedup.mergeSort (fun a b => decide (a ≤ b)))

lemma embryo_rows_some (g : List GlobalRow) (c : List ContactRow)
    (tps : List ℕ)
    (h : ∀ tp ∈ tps, ∃ r ∈ c, r.neighbor_2 = Label.str "exterior" ∧ r.tp = tp) :
    ∃ rows, embryo_rows g c tps = some rows
      ∧ rows.map (·.tp) = tps
      ∧ ∀ row ∈ rows,
          row.volume = ((g.filter (fun r => decide (r.tp = row.tp))).map (·.volume)).sum
          ∧ row.cell_count
              = ((g.filter (fun r => decide (r.tp = row.tp))).map (·.cell_count)).sum
          ∧ row.total_surface
              = ((c.filter (fun r => decide (r.neighbor_2 = Label.str "exterior")
                  && decide (r.tp = row.tp))).map (·.surface)).sum := by
  induction tps with
  | nil => exact ⟨[], rfl, rfl, by simp⟩
  | cons tp tps ih =>
    obtain ⟨rows, hrows, htps, hchar⟩ := ih (fun tp' h' => h tp' (List.mem_cons_of_mem _ h'))
    obtain ⟨r, hrc, hrext, hrtp⟩ := h tp (List.mem_cons_self _ _)
    have hne : (c.filter (fun r => decide (r.neighbor_2 = Label.str "exterior")
        && decide (r.tp = tp))).isEmpty = false := by
      rcases hfil : c.filter (fun r => decide (r.neighbor_2 = Label.str "exterior")
          && decide (r.tp = tp)) with _ | _
      · exfalso
        have : r ∈ c.filter (fun r => decide (r.neighbor_2 = Label.str "exterior")
            && decide (r.tp = tp)) := by
          rw [List.mem_filter]
          exact ⟨hrc, by simp [hrext, hrtp]⟩
        rw [hfil] at this
        exact List.not_mem_nil r this
      · rw [hfil]
        rfl
    refine ⟨EmbryoRow.mk tp ((( g.filter (fun r => decide (r.tp = tp))).map (·.volume)).sum)
        (((c.filter (fun r => decide (r.neighbor_2 = Label.str "exterior")
            && decide (r.tp = tp))).map (·.surface)).sum)
        (((g.filter (fun r => decide (r.tp = tp))).map (·.cell_count)).sum) :: rows,
      ?_, ?_, ?_⟩
    · rw [embryo_rows, embryo_row_at]
      simp only [hne, Bool.false_eq_true, if_false, hrows]
    · simp [htps]
    · intro row hrow
      rcases List.mem_cons.mp hrow with hrow | hrow
      · subst hrow
        exact ⟨rfl, rfl, rfl⟩
      · exact hchar row hrow

lemma embryo_rows_none (g : List GlobalRow) (c : List ContactRow)
    (tps : List ℕ)
    (h : ∃ tp ∈ tps, ∀ r ∈ c, ¬(r.neighbor_2 = Label.str "exterior" ∧ r.tp = tp)) :
    embryo_rows g c tps = none := by
  induction tps with
  | nil => simp at h
  | cons tp tps ih =>
    obtain ⟨tp', htp', hbad⟩ := h
    rcases List.mem_cons.mp htp' with rfl | htp'
    · have hemp : (c.filter (fun r => decide (r.neighbor_2 = Label.str "exterior")
          && decide (r.tp = tp'))).isEmpty = true := by
        rw [List.isEmpty_iff, List.filter_eq_nil_iff]
        intro r hr
        have := hbad r hr
        simp only [Bool.and_eq_true, decide_eq_true_eq]
        tauto
      rw [embryo_rows, embryo_row_at]
      simp only [hemp, if_true]
    · rw [embryo_rows, ih ⟨tp', htp', hbad⟩]
      rcases embryo_row_at g c tp with _ | _ <;> rfl

/-- C8: `frame_embryo_resolution_global` emits exactly one row per distinct
timepoint of the global table, whose volume and cell count are the sums of
the global table's values at that timepoint and whose total surface is the
sum of the surfaces of contact rows targeting `"exterior"` at that
timepoint; it raises (returns `none`) as soon as a timepoint of the global
table has no exterior contact row. -/
theorem frame_embryo_resolution_global_spec :
    ∀ (g : List GlobalRow) (c : List ContactRow),
      ((∀ tp ∈ g.map (·.tp), ∃ r ∈ c, r.neighbor_2 = Label.str "exterior" ∧ r.tp = tp) →
        ∃ rows, frame_embryo_resolution_global g c = some rows
          ∧ (rows.map (·.tp)).Nodup
          ∧ (∀ tp : ℕ, tp ∈ rows.map (·.tp) ↔ tp ∈ g.map (·.tp))
          ∧ ∀ row ∈ rows,
              row.volume = ((g.filter (fun r => decide (r.tp = row.tp))).map (·.volume)).sum
              ∧ row.cell_count
                  = ((g.filter (fun r => decide (r.tp = row.tp))).map (·.cell_count)).sum
              ∧ row.total_surface
                  = ((c.filter (fun r => decide (r.neighbor_2 = Label.str "exterior")
                      && decide (r.tp = row.tp))).map (·.surface)).sum)
      ∧ ((∃ tp ∈ g.map (·.tp), ∀ r ∈ c, ¬(r.neighbor_2 = Label.str "exterior" ∧ r.tp = tp)) →
          frame_embryo_resolution_global g c = none) := by
  intro g c
  constructor
  · intro h
    have hmem : ∀ tp : ℕ,
        tp ∈ (g.map (·.tp)).dedup.mergeSort (fun a b => decide (a ≤ b))
          ↔ tp ∈ g.map (·.tp) := by
      intro tp
      rw [List.mem_mergeSort, List.mem_dedup]
    obtain ⟨rows, hrows, htps, hchar⟩ :=
      embryo_rows_some g c ((g.map (·.tp)).dedup.mergeSort (fun a b => decide (a ≤ b)))
        (fun tp htp => h tp ((hmem tp).mp htp))
    refine ⟨rows, hrows, ?_, ?_, hchar⟩
    · rw [htps]
      exact ((List.mergeSort_perm (g.map (·.tp)).dedup _).symm).nodup (g.map (·.tp)).nodup_dedup
    · intro tp
      rw [htps]
      exact hmem tp
  · intro ⟨tp, htp, hbad⟩
    exact embryo_rows_none g c _
      ⟨tp, by rw [List.mem_mergeSort, List.mem_dedup]; exact htp, hbad⟩

/-- Witness for C8: concrete two-timepoint tables where every timepoint has
an exterior contact row. -/
theorem frame_embryo_resolution_global_spec_witness :
    ∃ rows, frame_embryo_resolution_global
        [GlobalRow.mk 0 (Label.str "a") 3 1, GlobalRow.mk 0 (Label.str "b") 4 1,
         GlobalRow.mk 1 (Label.str "a") 5 2]
        [ContactRow.mk 0 (Label.str "a") (Label.str "exterior") 7,
         ContactRow.mk 1 (Label.str "a") (Label.str "exterior") 9] = some rows
      ∧ (rows.map (·.tp)).Nodup
      ∧ (∀ tp : ℕ, tp ∈ rows.map (·.tp) ↔ tp ∈
          ([GlobalRow.mk 0 (Label.str "a") 3 1, GlobalRow.mk 0 (Label.str "b") 4 1,
            GlobalRow.mk 1 (Label.str "a") 5 2].map (·.tp)))
      ∧ ∀ row ∈ rows,
          row.volume = (([GlobalRow.mk 0 (Label.str "a") 3 1,
              GlobalRow.mk 0 (Label.str "b") 4 1,
              GlobalRow.mk 1 (Label.str "a") 5 2].filter
                (fun r => decide (r.tp = row.tp))).map (·.volume)).sum
          ∧ row.cell_count = (([GlobalRow.mk 0 (Label.str "a") 3 1,
              GlobalRow.mk 0 (Label.str "b") 4 1,
              GlobalRow.mk 1 (Label.str "a") 5 2].filter
                (fun r => decide (r.tp = row.tp))).map (·.cell_count)).sum
          ∧ row.total_surface = (([ContactRow.mk 0 (Label.str "a") (Label.str "exterior") 7,
              ContactRow.mk 1 (Label.str "a") (Label.str "exterior") 9].filter
                (fun r => decide (r.neighbor_2 = Label.str "exterior")
                  && decide (r.tp = row.tp))).map (·.surface)).sum :=
  (frame_embryo_resolution_global_spec
    [GlobalRow.mk 0 (Label.str "a") 3 1, GlobalRow.mk 0 (Label.str "b") 4 1,
     GlobalRow.mk 1 (Label.str "a") 5 2]
    [ContactRow.mk 0 (Label.str "a") (Label.str "exterior") 7,
     ContactRow.mk 1 (Label.str "a") (Label.str "exterior") 9]).1
    (by with_unfolding_all decide)

/-! ## `scripts/alignment.py`: temporal alignment -/

/-- `df.loc[df.tp == tp, 'cell_count'].values[0]`: the cell count on the
first row of a (timepoint, cell_count) series carrying timepoint `tp`
(`find_t` only performs this lookup for `tp` drawn from the series' own
timepoint column, where a first matching row always exists). -/
def countAt (series : List (ℚ × ℤ)) (tp : ℚ) : ℤ := dget series tp 0

/-- `find_t(n_cells_embryo_per_time, n_cells)`: if `n_cells` occurs in the
`cell_count` column, the midpoint of the smallest and largest timepoints
whose count equals `n_cells`; otherwise interpolate linearly between the
latest timepoint with a smaller count and the earliest timepoint with a
larger count.  `none` models the `ValueError` of `min`/`max` on an empty
list. -/
def find_t (series : List (ℚ × ℤ)) (n_cells : ℚ) : Option ℚ :=
  if (series.map (·.2)).any (fun c => decide ((c : ℚ) = n_cells)) then
    match ((series.map (·.1)).filter
        (fun tp => decide ((countAt series tp : ℚ) = n_cells))).min?,
      ((series.map (·.1)).filter
        (fun tp => decide ((countAt series tp : ℚ) = n_cells))).max? with
    | some mn, some mx => some ((mn + mx) / 2)
    | _, _ => none
  else
    match ((series.map (·.1)).filter
        (fun tp => decide ((countAt series tp : ℚ) < n_cells))).max?,
      ((series.map (·.1)).filter
        (fun tp => decide (n_cells < (countAt series tp : ℚ)))).min? with
    | some ts, some tl =>
      some (ts + (tl - ts) * (n_cells - (countAt series ts : ℚ))
        / ((countAt series tl : ℚ) - (countAt series ts : ℚ)))
    | _, _ => none

/-- Python `range(first, last + 1)` over integers. -/
def intRange (first last : ℤ) : List ℤ :=
  (List.range (last + 1 - first).toNat).map (fun (i : ℕ) => first + (i : ℤ))

/-- The integers visited by the `for n in range(first, last+1)` loop of
`temporal_alignement` that are not skipped by the `continue`: counts in the
intersection of the two observed ranges present in at least one series
(empty when either series is empty, in which case Python's `min`/`max`
raise first). -/
def shared_counts (reference_cells_per_time cells_per_time : List (ℚ × ℤ)) : List ℤ :=
  match (reference_cells_per_time.map (·.2)).min?,
        (reference_cells_per_time.map (·.2)).max?,
        (cells_per_time.map (·.2)).min?, (cells_per_time.map (·.2)).max? with
  | some rmin, some rmax, some cmin, some cmax =>
    (intRange (max rmin cmin) (min rmax cmax)).filter
      (fun n => decide (n ∈ reference_cells_per_time.map (·.2))
        || decide (n ∈ cells_per_time.map (·.2)))
  | _, _, _, _ => []

/-- The `times += [find_t(cells_per_time, n)]` accumulation of
`temporal_alignement`: `none` as soon as one `find_t` call raises. -/
def collect_times (series : List (ℚ × ℤ)) : List ℤ → Option (List ℚ)
  | [] => some []
  | n :: ns =>
    match find_t series (n : ℚ), collect_times series ns with
    | some t, some ts => some (t :: ts)
    | _, _ => none

/-- `sum(np.multiply(xs, ys))`. -/
def listDot (xs ys : List ℚ) : ℚ := (List.zipWith (· * ·) xs ys).sum

/-- `temporal_alignement(reference_cells_per_time, cells_per_time)`: the
least-squares coefficients `(a, b)` fitting `ref_times ≈ a * times + b`
over the matched cell counts.  `none` models a raised exception: an empty
input series (`min`/`max` of an empty column), a failing `find_t` call, or
zero matched counts (`ZeroDivisionError` on `len(times)`).  A zero `den`
with one matched count does *not* raise in Python (numpy float division
yields `nan` with a warning); here `ℚ`-division by zero yields junk `0`
coefficients, likewise without an error. -/
def temporal_alignement (reference_cells_per_time cells_per_time : List (ℚ × ℤ)) :
    Option (ℚ × ℚ) :=
  if reference_cells_per_time = [] ∨ cells_per_time = [] then none
  else
    match collect_times reference_cells_per_time
        (shared_counts reference_cells_per_time cells_per_time),
      collect_times cells_per_time
        (shared_counts reference_cells_per_time cells_per_time) with
    | some ref_times, some times =>
      if times = [] then none
      else
        let m : ℚ := times.length
        let num := listDot times ref_times - times.sum * ref_times.sum / m
        let den := listDot times times - times.sum * times.sum / m
        let a := num / den
        let b := (ref_times.sum - a * times.sum) / m
        some (a, b)
    | _, _ => none

/-! ### Lemmas about `find_t` -/

lemma dget_eq_of_nodup {α β : Type} [DecidableEq α] {d : List (α × β)} {k : α} {v : β}
    (hnd : (d.map (·.1)).Nodup) (hmem : (k, v) ∈ d) (v0 : β) : dget d k v0 = v := by
  induction d with
  | nil => cases hmem
  | cons kv d ih =>
    rw [List.map_cons, List.nodup_cons] at hnd
    rcases List.mem_cons.mp hmem with rfl | hmem'
    · rw [dget_cons, if_pos rfl]
    · rw [dget_cons]
      by_cases hk : kv.1 = k
      · exact absurd (by rw [hk]; exact List.mem_map_of_mem (·.1) hmem') hnd.1
      · rw [if_neg hk]
        exact ih hnd.2 hmem'

lemma countAt_eq_of_nodup {s : List (ℚ × ℤ)} {t : ℚ} {c : ℤ}
    (hnd : (s.map (·.1)).Nodup) (hmem : (t, c) ∈ s) : countAt s t = c :=
  dget_eq_of_nodup hnd hmem 0

/-- The timepoint-column filters of `find_t` equal, for a series with
distinct timepoints, the timepoints of the rows whose count satisfies the
predicate. -/
lemma filter_countAt_eq {s : List (ℚ × ℤ)} (hnd : (s.map (·.1)).Nodup)
    (p : ℤ → Bool) :
    (s.map (·.1)).filter (fun tp => p (countAt s tp))
      = (s.filter (fun r => p r.2)).map (·.1) := by
  rw [List.filter_map]
  congr 1
  apply List.filter_congr
  intro r hr
  have : countAt s r.1 = r.2 := countAt_eq_of_nodup hnd (by rwa [Prod.mk.eta])
  simp [Function.comp, this]

lemma min?_eq_some_of_mem_of_le {l : List ℚ} {a : ℚ} (ha : a ∈ l)
    (hlb : ∀ b ∈ l, a ≤ b) : l.min? = some a := by
  haveI : Std.Antisymm (α := ℚ) (· ≤ ·) := ⟨fun h1 h2 => le_antisymm h1 h2⟩
  rw [List.min?_eq_some_iff]
  · exact ⟨ha, hlb⟩
  · exact fun x => le_refl x
  · exact fun x y => min_choice x y
  · exact fun x y z => le_min_iff

lemma max?_eq_some_of_mem_of_le {l : List ℚ} {a : ℚ} (ha : a ∈ l)
    (hub : ∀ b ∈ l, b ≤ a) : l.max? = some a := by
  haveI : Std.Antisymm (α := ℚ) (· ≤ ·) := ⟨fun h1 h2 => le_antisymm h1 h2⟩
  rw [List.max?_eq_some_iff]
  · exact ⟨ha, hub⟩
  · exact fun x => le_refl x
  · exact fun x y => max_choice x y
  · exact fun x y z => max_le_iff

/-- Exact-match branch of `find_t`, characterised by the input rows. -/
lemma find_t_exact {s : List (ℚ × ℤ)} (hnd : (s.map (·.1)).Nodup) (n : ℚ)
    (hex : ∃ r ∈ s, (r.2 : ℚ) = n) {mn mx : ℚ}
    (hmn : ((s.filter (fun r => decide ((r.2 : ℚ) = n))).map (·.1)).min? = some mn)
    (hmx : ((s.filter (fun r => decide ((r.2 : ℚ) = n))).map (·.1)).max? = some mx) :
    find_t s n = some ((mn + mx) / 2) := by
  obtain ⟨r, hr, hrn⟩ := hex
  have hany : ((s.map (fun x => (x.2 : ℚ))).any (fun c => decide (c = n))) = true :=
    List.any_eq_true.mpr
      ⟨(r.2 : ℚ), List.mem_map_of_mem (fun x => (x.2 : ℚ)) hr, by simp [hrn]⟩
  rw [find_t, if_pos hany, filter_countAt_eq hnd (fun c => decide ((c : ℚ) = n)),
    hmn, hmx]

/-- Interpolation branch of `find_t`, characterised by the input rows. -/
lemma find_t_interp {s : List (ℚ × ℤ)} (hnd : (s.map (·.1)).Nodup) (n : ℚ)
    (hne : ∀ r ∈ s, (r.2 : ℚ) ≠ n) {ts cs tl cl : ℚ}
    (hts : ((s.filter (fun r => decide ((r.2 : ℚ) < n))).map (·.1)).max? = some ts)
    (htl : ((s.filter (fun r => decide (n < (r.2 : ℚ)))).map (·.1)).min? = some tl)
    (hcs : (countAt s ts : ℚ) = cs) (hcl : (countAt s tl : ℚ) = cl) :
    find_t s n = some (ts + (tl - ts) * (n - cs) / (cl - cs)) := by
  have hany : ((s.map (fun x => (x.2 : ℚ))).any (fun c => decide (c = n))) = false := by
    rw [List.any_eq_false]
    intro c hc
    rcases List.mem_map.mp hc with ⟨r, hr, rfl⟩
    simp [hne r hr]
  rw [find_t, if_neg (by simp [hany]),
    filter_countAt_eq hnd (fun c => decide ((c : ℚ) < n)),
    filter_countAt_eq hnd (fun c => decide (n < (c : ℚ))), hts, htl]
  show some (ts + (tl - ts) * (n - (countAt s ts : ℚ))
      / ((countAt s tl : ℚ) - (countAt s ts : ℚ)))
    = some (ts + (tl - ts) * (n - cs) / (cl - cs))
  rw [hcs, hcl]

/-- `find_t` does not raise when the requested count lies (weakly) between
two observed counts of a well-formed series. -/
lemma find_t_isSome {s : List (ℚ × ℤ)} (hnd : (s.map (·.1)).Nodup) (n : ℚ)
    (hlo : ∃ r ∈ s, (r.2 : ℚ) ≤ n) (hhi : ∃ r ∈ s, n ≤ (r.2 : ℚ)) :
    (find_t s n).isSome := by
  by_cases hex : ∃ r ∈ s, (r.2 : ℚ) = n
  · obtain ⟨r, hr, hrn⟩ := hex
    have hmem : r.1 ∈ (s.filter (fun r => decide ((r.2 : ℚ) = n))).map (·.1) :=
      List.mem_map_of_mem _ (List.mem_filter.mpr ⟨hr, by simp [hrn]⟩)
    obtain ⟨mn, hmn⟩ := Option.isSome_iff_exists.mp (List.isSome_min?_of_mem hmem)
    obtain ⟨mx, hmx⟩ := Option.isSome_iff_exists.mp (List.isSome_max?_of_mem hmem)
    rw [find_t_exact hnd n ⟨r, hr, hrn⟩ hmn hmx]
    rfl
  · push_neg at hex
    obtain ⟨rs, hrs, hrsle⟩ := hlo
    obtain ⟨rl, hrl, hrlge⟩ := hhi
    have hlt : (rs.2 : ℚ) < n := lt_of_le_of_ne hrsle (hex rs hrs)
    have hgt : n < (rl.2 : ℚ) := lt_of_le_of_ne hrlge (fun h => hex rl hrl h.symm)
    have hmems : rs.1 ∈ (s.filter (fun r => decide ((r.2 : ℚ) < n))).map (·.1) :=
      List.mem_map_of_mem _ (List.mem_filter.mpr ⟨hrs, by simp [hlt]⟩)
    have hmeml : rl.1 ∈ (s.filter (fun r => decide (n < (r.2 : ℚ)))).map (·.1) :=
      List.mem_map_of_mem _ (List.mem_filter.mpr ⟨hrl, by simp [hgt]⟩)
    obtain ⟨ts, hts⟩ := Option.isSome_iff_exists.mp (List.isSome_max?_of_mem hmems)
    obtain ⟨tl, htl⟩ := Option.isSome_iff_exists.mp (List.isSome_min?_of_mem hmeml)
    rw [find_t_interp hnd n hex hts htl rfl rfl]
    rfl

/-- C1: for a series with distinct timepoints, `find_t(series, n)` returns
the midpoint of the minimum and maximum timepoints whose count equals `n`
when `n` occurs, and otherwise the linear interpolation
`t_small + (t_large - t_small) * (n - count_small) / (count_large -
count_small)` between the latest timepoint with a strictly smaller count
and the earliest timepoint with a strictly larger count; consequently, for
a strictly monotonic series, `find_t(series, count_at(t)) = t` at every
observed timepoint `t`. -/
theorem find_t_spec : ∀ (s : List (ℚ × ℤ)), (s.map (·.1)).Nodup →
    (∀ n : ℚ,
      ((∃ r ∈ s, (r.2 : ℚ) = n) → ∀ mn mx : ℚ,
        ((s.filter (fun r => decide ((r.2 : ℚ) = n))).map (·.1)).min? = some mn →
        ((s.filter (fun r => decide ((r.2 : ℚ) = n))).map (·.1)).max? = some mx →
        find_t s n = some ((mn + mx) / 2))
      ∧ ((∀ r ∈ s, (r.2 : ℚ) ≠ n) → ∀ ts cs tl cl : ℚ,
        ((s.filter (fun r => decide ((r.2 : ℚ) < n))).map (·.1)).max? = some ts →
        ((s.filter (fun r => decide (n < (r.2 : ℚ)))).map (·.1)).min? = some tl →
        (countAt s ts : ℚ) = cs → (countAt s tl : ℚ) = cl →
        find_t s n = some (ts + (tl - ts) * (n - cs) / (cl - cs))))
    ∧ (s.Pairwise (fun a b => a.1 < b.1 ∧ a.2 < b.2) →
        ∀ r ∈ s, find_t s (r.2 : ℚ) = some r.1) := by
  intro s hnd
  constructor
  · intro n
    exact ⟨fun hex mn mx hmn hmx => find_t_exact hnd n hex hmn hmx,
      fun hne ts cs tl cl hts htl hcs hcl => find_t_interp hnd n hne hts htl hcs hcl⟩
  · intro hmono r hr
    have hsnd : ∀ x ∈ s, ∀ y ∈ s, x ≠ y → x.2 ≠ y.2 :=
      List.Pairwise.forall (fun {x y} h => (h : x.2 ≠ y.2).symm)
        (hmono.imp (fun h => ne_of_lt h.2))
    have hall : ∀ x ∈ (s.filter
        (fun r' => decide ((r'.2 : ℚ) = (r.2 : ℚ)))).map (·.1), x = r.1 := by
      intro x hx
      rcases List.mem_map.mp hx with ⟨r', hr', rfl⟩
      rw [List.mem_filter] at hr'
      have hc : r'.2 = r.2 := by exact_mod_cast (by simpa using hr'.2 : ((r'.2 : ℚ) = (r.2 : ℚ)))
      by_cases hrr : r' = r
      · rw [hrr]
      · exact absurd hc (hsnd r' hr'.1 r hr hrr)
    have hmem : r.1 ∈ (s.filter (fun r' => decide ((r'.2 : ℚ) = (r.2 : ℚ)))).map (·.1) :=
      List.mem_map_of_mem _ (List.mem_filter.mpr ⟨hr, by simp⟩)
    have hmn := min?_eq_some_of_mem_of_le hmem (fun b hb => le_of_eq (hall b hb).symm)
    have hmx := max?_eq_some_of_mem_of_le hmem (fun b hb => le_of_eq (hall b hb))
    rw [find_t_exact hnd (r.2 : ℚ) ⟨r, hr, rfl⟩ hmn hmx]
    congr 1
    ring

/-- Witness for C1: the round trip evaluated on a concrete strictly
monotonic series. -/
theorem find_t_spec_witness :
    find_t [((0 : ℚ), (1 : ℤ)), (2, 3)] ((3 : ℤ) : ℚ) = some 2 := by
  have hmono : List.Pairwise
      (fun (a b : ℚ × ℤ) => a.1 < b.1 ∧ a.2 < b.2) [((0 : ℚ), (1 : ℤ)), (2, 3)] := by
    norm_num [List.pairwise_cons]
  exact (find_t_spec [((0 : ℚ), (1 : ℤ)), (2, 3)]
    (by with_unfolding_all decide)).2 hmono ((2 : ℚ), (3 : ℤ)) (by simp)

lemma mem_intRange {first last n : ℤ} (h : n ∈ intRange first last) :
    first ≤ n ∧ n ≤ last := by
  unfold intRange at h
  rcases List.mem_map.mp h with ⟨i, hi, rfl⟩
  rw [List.mem_range] at hi
  omega

/-- A count selected by the alignment loop lies between the minimum and
maximum observed counts of both series. -/
lemma shared_counts_mem_bounds {ref emb : List (ℚ × ℤ)} {n : ℤ}
    (hn : n ∈ shared_counts ref emb) :
    (∃ r ∈ ref, r.2 ≤ n) ∧ (∃ r ∈ ref, n ≤ r.2)
    ∧ (∃ r ∈ emb, r.2 ≤ n) ∧ (∃ r ∈ emb, n ≤ r.2) := by
  unfold shared_counts at hn
  split at hn
  case _ rmin rmax cmin cmax h1 h2 h3 h4 =>
    rw [List.mem_filter] at hn
    obtain ⟨hfirst, hlast⟩ := mem_intRange hn.1
    have hrmin := List.min?_mem (fun a b => min_choice a b) h1
    have hrmax := List.max?_mem (fun a b => max_choice a b) h2
    have hcmin := List.min?_mem (fun a b => min_choice a b) h3
    have hcmax := List.max?_mem (fun a b => max_choice a b) h4
    rcases List.mem_map.mp hrmin with ⟨r1, hr1, hv1⟩
    rcases List.mem_map.mp hrmax with ⟨r2, hr2, hv2⟩
    rcases List.mem_map.mp hcmin with ⟨r3, hr3, hv3⟩
    rcases List.mem_map.mp hcmax with ⟨r4, hr4, hv4⟩
    refine ⟨⟨r1, hr1, ?_⟩, ⟨r2, hr2, ?_⟩, ⟨r3, hr3, ?_⟩, ⟨r4, hr4, ?_⟩⟩
    · rw [hv1]; exact le_trans (le_max_left _ _) hfirst
    · rw [hv2]; exact le_trans hlast (min_le_left _ _)
    · rw [hv3]; exact le_trans (le_max_right _ _) hfirst
    · rw [hv4]; exact le_trans hlast (min_le_right _ _)
  case _ => cases hn

/-- C10: inside the `temporal_alignement` loop the error branch of `find_t`
is unreachable — for series with distinct timepoints, every count `n`
selected by the loop (an integer of the intersection range present in at
least one series) makes both `find_t` calls succeed: either the exact match
branch fires, or both the strictly-smaller and strictly-larger timepoint
lists are nonempty, so `max(smaller_times)` and `min(larger_times)` are
never applied to empty lists. -/
theorem temporal_alignement_find_t_safe :
    ∀ (ref emb : List (ℚ × ℤ)),
      (ref.map (·.1)).Nodup → (emb.map (·.1)).Nodup →
      ∀ n ∈ shared_counts ref emb,
        (find_t ref (n : ℚ)).isSome ∧ (find_t emb (n : ℚ)).isSome := by
  intro ref emb hndr hndc n hn
  obtain ⟨⟨r1, hr1, h1⟩, ⟨r2, hr2, h2⟩, ⟨r3, hr3, h3⟩, ⟨r4, hr4, h4⟩⟩ :=
    shared_counts_mem_bounds hn
  exact ⟨find_t_isSome hndr _ ⟨r1, hr1, by exact_mod_cast h1⟩
      ⟨r2, hr2, by exact_mod_cast h2⟩,
    find_t_isSome hndc _ ⟨r3, hr3, by exact_mod_cast h3⟩
      ⟨r4, hr4, by exact_mod_cast h4⟩⟩

/-- Witness for C10: both `find_t` calls succeed at a shared count of two
concrete series (an interpolation for the first, an exact match for the
second). -/
theorem temporal_alignement_find_t_safe_witness :
    (find_t [((0 : ℚ), (5 : ℤ)), (1, 7)] ((6 : ℤ) : ℚ)).isSome
    ∧ (find_t [((0 : ℚ), (6 : ℤ)), (1, 8)] ((6 : ℤ) : ℚ)).isSome :=
  temporal_alignement_find_t_safe [((0 : ℚ), (5 : ℤ)), (1, 7)]
    [((0 : ℚ), (6 : ℤ)), (1, 8)]
    (by with_unfolding_all decide) (by with_unfolding_all decide) 6
    (by with_unfolding_all decide)

/-- A `countAt` lookup at a timepoint of the series always produces the
count of one of its rows. -/
lemma countAt_mem_of_mem {s : List (ℚ × ℤ)} {tp : ℚ} (h : tp ∈ s.map (·.1)) :
    ∃ r ∈ s, countAt s tp = r.2 := by
  rcases hf : s.find? (fun kv => decide (kv.1 = tp)) with _ | r
  · rcases List.mem_map.mp h with ⟨r, hr, rfl⟩
    have := List.find?_eq_none.mp hf r hr
    simp at this
  · refine ⟨r, List.mem_of_find?_eq_some hf, ?_⟩
    unfold countAt dget
    rw [hf]

/-- C2 (amended: the `temporal_alignement` clause holds for an *empty*
shared intersection; with exactly one alignment point Python divides a
float zero by a float zero, producing `nan` coefficients without raising —
see the counterexample): `find_t` raises whenever `n` is outside the
observed count range, and more generally whenever `n` is not an exact match
and one side of the bracket is empty; `temporal_alignement` raises for an
embryo whenever the shared cell-count intersection selects no alignment
point. -/
theorem find_t_out_of_range_error :
    (∀ (s : List (ℚ × ℤ)) (n : ℚ), (∀ r ∈ s, n < (r.2 : ℚ)) → find_t s n = none)
    ∧ (∀ (s : List (ℚ × ℤ)) (n : ℚ), (∀ r ∈ s, (r.2 : ℚ) < n) → find_t s n = none)
    ∧ (∀ (s : List (ℚ × ℤ)) (n : ℚ), (∀ r ∈ s, (r.2 : ℚ) ≠ n) →
        ((∀ r ∈ s, ¬((r.2 : ℚ) < n)) ∨ (∀ r ∈ s, ¬(n < (r.2 : ℚ)))) →
        find_t s n = none)
    ∧ (∀ ref emb : List (ℚ × ℤ), shared_counts ref emb = [] →
        temporal_alignement ref emb = none) := by
  have hbracket : ∀ (s : List (ℚ × ℤ)) (n : ℚ), (∀ r ∈ s, (r.2 : ℚ) ≠ n) →
      ((∀ r ∈ s, ¬((r.2 : ℚ) < n)) ∨ (∀ r ∈ s, ¬(n < (r.2 : ℚ)))) →
      find_t s n = none := by
    intro s n hne hor
    have hany : ((s.map (fun x => (x.2 : ℚ))).any (fun c => decide (c = n))) = false := by
      rw [List.any_eq_false]
      intro c hc
      rcases List.mem_map.mp hc with ⟨r, hr, rfl⟩
      simp [hne r hr]
    rw [find_t, if_neg (by simp [hany])]
    rcases hor with hor | hor
    · have hfil : (s.map (·.1)).filter
          (fun tp => decide ((countAt s tp : ℚ) < n)) = [] := by
        rw [List.filter_eq_nil_iff]
        intro tp htp
        obtain ⟨r, hr, hc⟩ := countAt_mem_of_mem htp
        simp only [decide_eq_true_eq, hc]
        exact hor r hr
      rw [hfil]
      split
      · simp_all
      · rfl
    · have hfil : (s.map (·.1)).filter
          (fun tp => decide (n < (countAt s tp : ℚ))) = [] := by
        rw [List.filter_eq_nil_iff]
        intro tp htp
        obtain ⟨r, hr, hc⟩ := countAt_mem_of_mem htp
        simp only [decide_eq_true_eq, hc]
        exact hor r hr
      rw [hfil]
      split
      · simp_all
      · rfl
  refine ⟨?_, ?_, hbracket, ?_⟩
  · intro s n h
    exact hbracket s n (fun r hr => (h r hr).ne') (Or.inl (fun r hr => asymm (h r hr)))
  · intro s n h
    exact hbracket s n (fun r hr => (h r hr).ne) (Or.inr (fun r hr => asymm (h r hr)))
  · intro ref emb hsc
    by_cases h : ref = [] ∨ emb = []
    · rw [temporal_alignement, if_pos h]
    · rw [temporal_alignement, if_neg h, hsc]
      simp [collect_times]

/-- Witness for C2: a below-range count raises in `find_t`, and an empty
intersection raises in `temporal_alignement`. -/
theorem find_t_out_of_range_error_witness :
    find_t [((0 : ℚ), (5 : ℤ))] 7 = none
    ∧ temporal_alignement [((0 : ℚ), (5 : ℤ))] [((3 : ℚ), (9 : ℤ))] = none :=
  ⟨find_t_out_of_range_error.2.1 [((0 : ℚ), (5 : ℤ))] 7
      (by intro r hr; rw [List.mem_singleton] at hr; rw [hr]; norm_num),
   find_t_out_of_range_error.2.2.2 [((0 : ℚ), (5 : ℤ))] [((3 : ℚ), (9 : ℤ))]
      (by with_unfolding_all decide)⟩

/-- C2 counterexample: a shared intersection with exactly one alignment
point (fewer than 2) does *not* make `temporal_alignement` fail with an
error: Python computes `num = den = 0.0` as numpy floats and `0.0/0.0`
yields `nan` with only a runtime warning, returning `(nan, nan)`; in this
exact-arithmetic model the division-by-zero convention likewise returns
junk coefficients `(0, 0)` rather than `none`. -/
theorem temporal_alignement_one_point_counterexample :
    (shared_counts [((0 : ℚ), (5 : ℤ))] [((0 : ℚ), (5 : ℤ))]).length = 1
    ∧ temporal_alignement [((0 : ℚ), (5 : ℤ))] [((0 : ℚ), (5 : ℤ))] = some (0, 0)
    ∧ temporal_alignement [((0 : ℚ), (5 : ℤ))] [((0 : ℚ), (5 : ℤ))] ≠ none := by
  refine ⟨?_, ?_, ?_⟩ <;> with_unfolding_all decide

lemma listDot_self (l : List ℚ) : listDot l l = (l.map (fun x => x * x)).sum := by
  induction l with
  | nil => rfl
  | cons x l ih =>
    unfold listDot at ih ⊢
    rw [List.zipWith_cons_cons, List.sum_cons, ih, List.map_cons, List.sum_cons]

/-- Strict Cauchy–Schwarz for a list with two distinct entries:
`(Σx)² < n · Σx²`. -/
lemma sum_sq_lt {l : List ℚ} (h : ∃ a ∈ l, ∃ b ∈ l, a ≠ b) :
    l.sum * l.sum < (l.length : ℚ) * (l.map (fun x => x * x)).sum := by
  obtain ⟨a, ha, b, hb, hab⟩ := h
  have hn : 0 < (l.length : ℚ) := by
    exact_mod_cast List.length_pos.mpr (List.ne_nil_of_mem ha)
  set n : ℚ := (l.length : ℚ) with hn_def
  set S : ℚ := l.sum with hS_def
  have hS : ∑ i : Fin l.length, l[i.1] = S := Fin.sum_univ_get l
  have hQ : ∑ i : Fin l.length, l[i.1] * l[i.1] = (l.map (fun x => x * x)).sum :=
    Fin.sum_univ_get' l (fun x => x * x)
  set Q : ℚ := (l.map (fun x => x * x)).sum with hQ_def
  have hdev : ∑ i : Fin l.length, (l[i.1] - S / n) * (l[i.1] - S / n)
      = Q - S * S / n := by
    have expand : ∀ i : Fin l.length,
        (l[i.1] - S / n) * (l[i.1] - S / n)
          = l[i.1] * l[i.1] - (2 * (S / n)) * l[i.1] + (S / n) * (S / n) := by
      intro i; ring
    rw [Finset.sum_congr rfl (fun i _ => expand i)]
    rw [Finset.sum_add_distrib, Finset.sum_sub_distrib, ← Finset.mul_sum, hS, hQ,
      Finset.sum_const, Finset.card_univ, Fintype.card_fin, nsmul_eq_mul]
    rw [← hn_def]
    field_simp
    ring
  obtain ⟨ia, hia⟩ := List.mem_iff_get.mp ha
  obtain ⟨ib, hib⟩ := List.mem_iff_get.mp hb
  have hdev_ne : ∃ i : Fin l.length, l[i.1] - S / n ≠ 0 := by
    by_contra hno
    push_neg at hno
    have h1 : a = S / n := by
      have := hno ia
      rw [List.get_eq_getElem] at hia
      rw [hia] at this
      linarith [this]
    have h2 : b = S / n := by
      have := hno ib
      rw [List.get_eq_getElem] at hib
      rw [hib] at this
      linarith [this]
    exact hab (h1.trans h2.symm)
  obtain ⟨i0, hi0⟩ := hdev_ne
  have hpos : 0 < ∑ i : Fin l.length, (l[i.1] - S / n) * (l[i.1] - S / n) := by
    apply Finset.sum_pos' (fun i _ => mul_self_nonneg _)
    exact ⟨i0, Finset.mem_univ _,
      lt_of_le_of_ne (mul_self_nonneg _) (Ne.symm (mul_ne_zero hi0 hi0))⟩
  rw [hdev] at hpos
  have : S * S / n < Q := by linarith
  calc S * S = S * S / n * n := by field_simp
  _ < Q * n := by apply mul_lt_mul_of_pos_right this hn
  _ = n * Q := mul_comm _ _

/-- C5: aligning a series against itself yields the identity coefficients
`a = 1`, `b = 0`, provided at least two distinct alignment timepoints are
produced (otherwise the variance denominator vanishes). -/
theorem temporal_alignement_self_identity :
    ∀ (s : List (ℚ × ℤ)) (ts : List ℚ),
      collect_times s (shared_counts s s) = some ts →
      (∃ t1 ∈ ts, ∃ t2 ∈ ts, t1 ≠ t2) →
      temporal_alignement s s = some (1, 0) := by
  intro s ts hts h2
  have hs : s ≠ [] := by
    rintro rfl
    rw [show shared_counts ([] : List (ℚ × ℤ)) [] = [] from rfl] at hts
    rw [show collect_times ([] : List (ℚ × ℤ)) [] = some [] from rfl] at hts
    obtain ⟨t1, ht1, _⟩ := h2
    rw [← Option.some_inj.mp hts] at ht1
    cases ht1
  have hts_ne : ts ≠ [] := by
    rintro rfl
    obtain ⟨t1, ht1, _⟩ := h2
    cases ht1
  rw [temporal_alignement, if_neg (by simp [hs]), hts]
  show (if ts = [] then none
    else
      let m : ℚ := ts.length
      let num := listDot ts ts - ts.sum * ts.sum / m
      let den := listDot ts ts - ts.sum * ts.sum / m
      let a := num / den
      let b := (ts.sum - a * ts.sum) / m
      some (a, b)) = some (1, 0)
  rw [if_neg hts_ne]
  show some ((listDot ts ts - ts.sum * ts.sum / (ts.length : ℚ))
      / (listDot ts ts - ts.sum * ts.sum / (ts.length : ℚ)),
    (ts.sum - (listDot ts ts - ts.sum * ts.sum / (ts.length : ℚ))
      / (listDot ts ts - ts.sum * ts.sum / (ts.length : ℚ)) * ts.sum)
      / (ts.length : ℚ)) = some (1, 0)
  have hlen : 0 < (ts.length : ℚ) := by
    obtain ⟨t1, ht1, _⟩ := h2
    exact_mod_cast List.length_pos.mpr (List.ne_nil_of_mem ht1)
  have hlt := sum_sq_lt h2
  have hden : listDot ts ts - ts.sum * ts.sum / (ts.length : ℚ) ≠ 0 := by
    rw [listDot_self]
    have hx : ts.sum * ts.sum / (ts.length : ℚ) < (ts.map (fun x => x * x)).sum :=
      (div_lt_iff₀ hlen).mpr (by rw [mul_comm ((ts.map (fun x => x * x)).sum)]; exact hlt)
    exact sub_ne_zero_of_ne (ne_of_gt hx)
  rw [div_self hden, one_mul, sub_self, zero_div]

/-- Witness for C5: a concrete two-point series aligned against itself. -/
theorem temporal_alignement_self_identity_witness :
    temporal_alignement [((0 : ℚ), (5 : ℤ)), (1, 6)] [((0 : ℚ), (5 : ℤ)), (1, 6)]
      = some (1, 0) :=
  temporal_alignement_self_identity [((0 : ℚ), (5 : ℤ)), (1, 6)] [0, 1]
    (by with_unfolding_all decide)
    ⟨0, by simp, 1, by simp, by norm_num⟩

/-! ## `scripts/alignment.py`: voxelsize correction -/

/-- `target_volume = 10**6` from `utils/alignment_settings.py`. -/
def target_volume : ℚ := 10 ^ 6

/-- `np.cbrt`: the real cube root, defined for arguments of every sign. -/
noncomputable def cbrt (x : ℝ) : ℝ := Real.sign x * |x| ^ ((1 : ℝ) / 3)

lemma cbrt_cube (x : ℝ) : cbrt x ^ 3 = x := by
  unfold cbrt
  rcases lt_trichotomy x 0 with hx | hx | hx
  · rw [Real.sign_of_neg hx, abs_of_neg hx, mul_pow,
      ← Real.rpow_natCast ((-x) ^ ((1 : ℝ) / 3)) 3,
      ← Real.rpow_mul (by linarith : (0 : ℝ) ≤ -x)]
    norm_num
  · rw [hx, Real.sign_zero, zero_mul]
    norm_num
  · rw [Real.sign_of_pos hx, abs_of_pos hx, one_mul,
      ← Real.rpow_natCast (x ^ ((1 : ℝ) / 3)) 3, ← Real.rpow_mul hx.le]
    norm_num

lemma cbrt_one : cbrt 1 = 1 := by
  unfold cbrt
  rw [Real.sign_of_pos one_pos, abs_one, Real.one_rpow, one_mul]

/-- The regression-fitted volume of an embryo at a timepoint:
`volume_regression_coefficients[embryo][0] * tp +
volume_regression_coefficients[embryo][1]`.  The coefficients themselves
come from `sklearn.RANSACRegressor` (an external, stochastic library) and
are parameters of the model. -/
noncomputable def volume_at (a b tp : ℝ) : ℝ := a * tp + b

/-- The per-embryo inner loop of `get_voxelsize_correction`: associate to
each observed timepoint the correction
`np.cbrt(target_volume / volume_at(tp))`. -/
noncomputable def get_voxelsize_correction (a b : ℝ) (tps : List ℝ) :
    List (ℝ × ℝ) :=
  tps.map (fun tp => (tp, cbrt ((target_volume : ℝ) / volume_at a b tp)))

/-- C4: with `target_volume` defaulting to `10^6`, every entry of
`get_voxelsize_correction` carries `corr(t) = cbrt(target_volume /
(a*t + b))`, so (whenever the fitted volume is nonzero) the corrected
fitted volume `(a*t + b) * corr(t)^3` equals `target_volume` exactly, and
re-deriving the correction from the corrected fitted volume gives 1. -/
theorem get_voxelsize_correction_spec :
    target_volume = 10 ^ 6
    ∧ ∀ (a b : ℝ) (tps : List ℝ), ∀ p ∈ get_voxelsize_correction a b tps,
        p.2 = cbrt ((target_volume : ℝ) / volume_at a b p.1)
        ∧ (volume_at a b p.1 ≠ 0 →
            volume_at a b p.1 * p.2 ^ 3 = (target_volume : ℝ)
            ∧ cbrt ((target_volume : ℝ) / (volume_at a b p.1 * p.2 ^ 3)) = 1) := by
  have htarget : ((target_volume : ℝ)) ≠ 0 := by
    norm_num [target_volume]
  refine ⟨rfl, ?_⟩
  intro a b tps p hp
  rcases List.mem_map.mp hp with ⟨tp, htp, rfl⟩
  refine ⟨rfl, fun hv => ?_⟩
  have hmain : volume_at a b tp
      * cbrt ((target_volume : ℝ) / volume_at a b tp) ^ 3 = (target_volume : ℝ) := by
    rw [cbrt_cube]
    field_simp
  refine ⟨hmain, ?_⟩
  have harg : (target_volume : ℝ)
      / (volume_at a b tp * cbrt ((target_volume : ℝ) / volume_at a b tp) ^ 3) = 1 := by
    rw [hmain]
    exact div_self htarget
  show cbrt ((target_volume : ℝ)
    / (volume_at a b tp * cbrt ((target_volume : ℝ) / volume_at a b tp) ^ 3)) = 1
  rw [harg, cbrt_one]

/-- Witness for C4: the corrected fitted volume hits the target exactly at
a concrete timepoint with fit `v(t) = 0*t + 1`. -/
theorem get_voxelsize_correction_spec_witness :
    volume_at (0 : ℝ) 1 0 ≠ 0
    ∧ volume_at (0 : ℝ) 1 0
        * cbrt ((target_volume : ℝ) / volume_at (0 : ℝ) 1 0) ^ 3
        = (target_volume : ℝ) := by
  have hv : volume_at (0 : ℝ) 1 0 ≠ 0 := by norm_num [volume_at]
  have hp : ((0 : ℝ), cbrt ((target_volume : ℝ) / volume_at (0 : ℝ) 1 0))
      ∈ get_voxelsize_correction (0 : ℝ) 1 [0] := by
    simp [get_voxelsize_correction]
  exact ⟨hv, ((get_voxelsize_correction_spec.2 0 1 [0] _ hp).2 hv).1⟩

end ACoV
